import Mathlib

/-!
# A verification model of the `o` virtual-DOM library (`src/o.mjs`)

This file gives a shallow embedding of the library's data model and
operations, translated from the JavaScript source:

* the hook machinery (`getHook`, `useReducer`, `useState`, `useEffect`,
  `changed`) of `src/o.mjs` lines 130-238;
* the reconciler `render` of `src/o.mjs` lines 251-318, and the duplicated
  variant of `src/unnamed/part_000` lines 105-150;
* the template parser `x` of `src/o.mjs` lines 49-128 and the node builder
  `h` of line 29.

Mutable JavaScript state (the module-level `hooks`, `index`, the DOM tree,
the hook stores attached to DOM containers) is threaded explicitly.  The
unbounded `while` loops of the source (component resolution, per-string
parsing) take a fuel argument and return `Option`; `none` models fuel
exhaustion or a JavaScript crash (a failed regular-expression match).
-/

set_option autoImplicit false

namespace O

/-- Primitive JavaScript values exercised by the library's data paths:
`undefined`, strings and numbers.  (Functions and objects stored in
property bags are outside the modelled fragment; dependency arrays, the
one place the hook code stores an array into a cell, are modelled by the
dedicated `HookVal.deps` constructor below.) -/
inductive Val where
  | jsUndefined
  | str (s : String)
  | num (n : Int)
  deriving DecidableEq, Repr

/-- JavaScript truthiness on the modelled values: `undefined`, `""` and `0`
are falsy, everything else truthy. -/
def truthy : Val → Bool
  | .jsUndefined => false
  | .str s => s ≠ ""
  | .num n => n ≠ 0

/-- JavaScript string coercion `String(v)` on the modelled values, used when
a value becomes an object key (`hs[k]`) or is passed to `setAttribute`. -/
def valToString : Val → String
  | .jsUndefined => "undefined"
  | .str s => s
  | .num n => toString n

/-- The content of a hook cell's `value` slot.  In the source a cell holds
either an ordinary state value (reducer/state hooks) or the previously
stored dependency array (effect hooks); the two uses are distinguished
here by constructor. -/
inductive HookVal where
  | val (v : Val)
  | deps (l : List Val)
  deriving DecidableEq, Repr

/-- Truthiness of a hook cell value (`!a` in `changed`): an array is always
truthy in JavaScript, even when empty. -/
def truthyH : HookVal → Bool
  | .val v => truthy v
  | .deps _ => true

/-- JavaScript indexing `a[i]` on a hook cell value: out-of-range and
non-array indexing yield `undefined`. -/
def jsIndex : HookVal → Nat → Val
  | .deps l, i => (l.get? i).getD .jsUndefined
  | .val _, _ => .jsUndefined

/-- A hook cell (`src/o.mjs` line 141 and `useEffect`): the `value` slot,
the pending effect callback `cb` and the recorded `cleanup` callback.
Effect and cleanup callbacks are opaque in the source (the library only
stores and invokes them); they are modelled as numeric tokens, and an
invocation is recorded in a log. -/
structure Hook where
  value : HookVal
  cb : Option Nat
  cleanup : Option Nat
  deriving DecidableEq, Repr

/-- A fresh hook cell `{ value }` as created by `getHook`. -/
def mkHook (v : HookVal) : Hook := ⟨v, none, none⟩

/-- The module-level mutable hook context of `src/o.mjs` lines 130-133:
the current component's hook array and the read cursor. -/
structure HookSt where
  hooks : List Hook
  index : Nat
  deriving DecidableEq, Repr

/-- A hook-context computation: explicit state passing for the mutable
`hooks` / `index` globals. -/
def HookM (α : Type) : Type := HookSt → α × HookSt

/-- `src/o.mjs` lines 138-145: return the hook at the current cursor or
create a fresh one (pushed at the end, which is exactly the cursor
position), advancing the cursor in both cases. -/
def getHook (value : HookVal) : HookM Hook := fun s =>
  match s.hooks.get? s.index with
  | some hook => (hook, { s with index := s.index + 1 })
  | none =>
      let hook := mkHook value
      (hook, { hooks := s.hooks ++ [hook], index := s.index + 1 })

/-- The data of the `dispatch` closure returned by `useReducer`
(`src/o.mjs` lines 176-179): the captured reducer and the cell's position
in the instance's hook array.  The closure's body is executed by
`runDispatch` below, which also performs the captured
`update = forceUpdate` call (a re-render of the same descriptor list into
the same container). -/
structure DispatchAction where
  reducer : Val → Val → Val
  idx : Nat

/-- Read a state value out of a hook cell, as `reducer(hook.value, action)`
does for reducer cells. -/
def HookVal.asVal : HookVal → Val
  | .val v => v
  | .deps _ => .jsUndefined

/-- `src/o.mjs` lines 173-181: acquire a cell with the given initial value
and return the current value together with the dispatch data. -/
def useReducer (reducer : Val → Val → Val) (initialState : Val) :
    HookM (Val × DispatchAction) := fun s =>
  let (hook, s') := getHook (.val initialState) s
  ((hook.value.asVal, ⟨reducer, s.index⟩), s')

/-- `src/o.mjs` line 201: the state hook is the reducer hook with the
assignment reducer, which replaces the value with the action
unconditionally. -/
def useState (initialState : Val) : HookM (Val × DispatchAction) :=
  useReducer (fun _ v => v) initialState

/-- `src/o.mjs` lines 237-238: `(a, b) => !a || b.some((arg, i) => arg !== a[i])`.
Returns true when the previously stored value is falsy (in particular
`undefined` on first run) or some entry of the new list differs from the
entry at the same index of the stored value. -/
def changed (a : HookVal) (b : List Val) : Bool :=
  !truthyH a || b.enum.any fun p => p.2 ≠ jsIndex a p.1

/-- `src/o.mjs` lines 229-235: acquire a cell (with `undefined` initial
value); when `changed` reports a difference, store the new dependency list
and mark the cell's pending effect callback, mutating the cell in place
inside the hook array. -/
def useEffect (cb : Nat) (args : List Val) : HookM Unit := fun s =>
  let i := s.index
  let (hook, s') := getHook (.val .jsUndefined) s
  if changed hook.value args then
    ((), { s' with hooks := s'.hooks.set i { hook with value := .deps args, cb := some cb } })
  else ((), s')

/-- A `useEffect(cb)` call with no dependency-list argument: the source's
parameter default `args = []` (`src/o.mjs` line 229) makes it identical to
passing the empty list. -/
def useEffectNoArgs (cb : Nat) : HookM Unit := useEffect cb []

/-! ## Association lists

Plain JavaScript objects used as maps (`v.p`, `dom.h`, `ids`) are modelled
as association lists in insertion order: assigning an existing key keeps
its position, a new key is appended, matching JavaScript enumeration
order for non-numeric string keys. -/

/-- Object property read `o[k]`; `none` models `undefined`. -/
def alGet {κ α : Type} [DecidableEq κ] : List (κ × α) → κ → Option α
  | [], _ => none
  | (k, v) :: rest, key => if k = key then some v else alGet rest key

/-- Object property write `o[k] = v`. -/
def alSet {κ α : Type} [DecidableEq κ] : List (κ × α) → κ → α → List (κ × α)
  | [], key, v => [(key, v)]
  | (k, w) :: rest, key, v =>
    if k = key then (key, v) :: rest else (k, w) :: alSet rest key v

/-! ## Virtual nodes and the host tree -/

/-- A virtual node (`VNode` of `src/o.mjs` lines 1-8), as the tagged union
over element, text and component that the code discriminates dynamically
(`typeof v.e === 'function'`, truthiness of `v.e`).  Components are
identified by an opaque name of type `K`; an environment (below) maps the
name to the component function and to its source text (used by the
implicit-key computation `'' + v.e + ...`). -/
inductive VNode (K : Type) where
  | elem (e : String) (p : List (String × Val)) (c : List (VNode K))
  | text (d : Val)
  | comp (f : K) (p : List (String × Val)) (c : List (VNode K))

/-- The node builder `h` of `src/o.mjs` line 29 for string tags:
`(e, p = {}, ...c) => ({ e, p, c })`. -/
def h {K : Type} (e : String) (p : List (String × Val)) (c : List (VNode K)) :
    VNode K :=
  .elem e p c

/-- The ambient interpretation of component names: `interp` is the
component function itself (receiving props and children, and running in
the hook context; the `forceUpdate` argument of the source is realised at
dispatch time by `runDispatch` below), `src` its JavaScript source text as
coerced by `'' + v.e`, and `cbRet` the value an effect callback returns
when invoked (the optional cleanup callback, both modelled as opaque
numeric tokens). -/
structure Env (K : Type) where
  interp : K → List (String × Val) → List (VNode K) → HookM (VNode K)
  src : K → String
  cbRet : Nat → Option Nat

/-- A host (DOM) node.  Elements carry: the tag they were created with,
whether they were created through `createElementNS`, the bookkeeping
identity `e` the renderer attaches (`node.e = v.e`), the JavaScript
property bag written by property assignment, the attribute map written by
`setAttribute`, the child list, and the hook store `dom.h` the renderer
attaches to containers.  Text nodes carry their `data` payload. -/
inductive HNode where
  | elem (tag : String) (nsF : Bool) (e : Option String)
      (props : List (String × Val)) (attrs : List (String × String))
      (children : List HNode) (hstore : List (String × List Hook))
  | text (data : Val)

/-- The bookkeeping identity `node.e` (`undefined` on text nodes and on
freshly created elements). -/
def hnodeE : HNode → Option String
  | .elem _ _ e _ _ _ _ => e
  | .text _ => none

/-- The JavaScript read `node.data`: the payload of a text node; on an
element it is an ordinary property (normally `undefined`). -/
def hnodeData : HNode → Val
  | .text d => d
  | .elem _ _ _ p _ _ _ => (alGet p "data").getD .jsUndefined

/-- The JavaScript property read `node[k]` used by the property-diff guard
(`undefined` when unset; text nodes are never read this way). -/
def propGet : HNode → String → Val
  | .elem _ _ _ p _ _ _, k => (alGet p k).getD .jsUndefined
  | .text _, _ => .jsUndefined

/-- Property assignment `node[k] = v`. -/
def propSet : HNode → String → Val → HNode
  | .elem t nf e p a c hs, k, v => .elem t nf e (alSet p k v) a c hs
  | n, _, _ => n

/-- Attribute read, for observing `setAttribute` results. -/
def attrGet : HNode → String → Option String
  | .elem _ _ _ _ a _ _, k => alGet a k
  | .text _, _ => none

/-- `node.setAttribute(k, v)`; attribute values are string-coerced. -/
def attrSet : HNode → String → String → HNode
  | .elem t nf e p a c hs, k, v => .elem t nf e p (alSet a k v) c hs
  | n, _, _ => n

/-- The bookkeeping write `node.e = v.e`. -/
def setE : HNode → Option String → HNode
  | .elem t nf _ p a c hs, e => .elem t nf e p a c hs
  | n, _ => n

/-- The write `node.data = v`: replaces a text node's payload; on an
element it sets the plain property named `data` (only reachable for an
`undefined` text descriptor matched against an element). -/
def setData : HNode → Val → HNode
  | .text _, d => .text d
  | .elem t nf e p a c hs, d => .elem t nf e (alSet p "data" d) a c hs

/-- Instrumentation threaded through a render pass: `writes` counts net
host mutations (an executed property, attribute or text assignment whose
new value differs from the current one), `log` records every invoked
effect / cleanup callback token in invocation order. -/
structure St where
  writes : Nat
  log : List Nat
  deriving DecidableEq, Repr

/-- Record a net host write. -/
def bumpW (st : St) : St := { st with writes := st.writes + 1 }

/-- Record a callback invocation. -/
def logTok (st : St) (t : Nat) : St := { st with log := st.log ++ [t] }

/-! ## The reconciler of `src/o.mjs` -/

/-- The component-resolution loop, `src/o.mjs` lines 263-271 (the
duplicated variant `src/unnamed/part_000` lines 117-125 is the same
code): while the node is a component, compute the instance key — the
explicit `k` property when truthy, otherwise the function's source text
together with the auto-incremented per-pass counter (the short-circuit in
`(v.p && v.p.k) || '' + v.e + (ids[v.e] = (ids[v.e] || 1) + 1)` bumps the
counter only when the explicit key is absent or falsy) — install that
instance's stored hook array with the cursor reset, invoke the component,
and record the resulting hook array in the new store under the key.
The fuel bounds the loop; `none` models a component chain that never
reaches a concrete node. -/
def resolveComp {K : Type} [DecidableEq K] (env : Env K) :
    Nat → VNode K → List (K × Nat) → List (String × List Hook) →
    List (String × List Hook) →
    Option (VNode K × List (K × Nat) × List (String × List Hook))
  | 0, v, ids, _, store =>
    match v with
    | .comp _ _ _ => none
    | _ => some (v, ids, store)
  | fuel + 1, v, ids, hs, store =>
    match v with
    | .comp f p c =>
      let kv := (alGet p "k").getD .jsUndefined
      let (k, ids') :=
        if truthy kv then (valToString kv, ids)
        else
          let n := (alGet ids f).getD 1 + 1
          (env.src f ++ toString n, alSet ids f n)
      let (v', hst) := env.interp f p c ⟨(alGet hs k).getD [], 0⟩
      resolveComp env fuel v' ids' hs (alSet store k hst.hooks)
    | _ => some (v, ids, store)

/-- The `xmlns` read `v.p && v.p.xmlns` feeding `nsURI`
(`src/o.mjs` line 273). -/
def vnodeXmlns {K : Type} : VNode K → Val
  | .elem _ p _ => (alGet p "xmlns").getD .jsUndefined
  | _ => .jsUndefined

/-- The node-reuse test of `src/o.mjs` line 283:
`!node || (v.e ? node.e !== v.e : node.data !== v)` — `true` means a new
host node is created and inserted. -/
def mismatchO {K : Type} : Option HNode → VNode K → Bool
  | none, _ => true
  | some n, .elem e _ _ => hnodeE n ≠ some e
  | some n, .text d => hnodeData n ≠ d
  | some _, .comp _ _ _ => true

/-- The node-reuse test of `src/unnamed/part_000` line 132:
`!n || (n.e !== v.e && n.data !== v)`.  For an element descriptor the
`n.data !== v` conjunct compares a text payload with an object and is
always true, leaving the tag comparison; for a text descriptor `v.e` is
`undefined`, so any old text node is reused regardless of payload. -/
def mismatchD {K : Type} : Option HNode → VNode K → Bool
  | none, _ => true
  | some n, .elem e _ _ => hnodeE n ≠ some e
  | some n, .text d => hnodeE n ≠ none && hnodeData n ≠ d
  | some _, .comp _ _ _ => true

/-- `createNode` of `src/o.mjs` lines 274-279: an element through
`createElementNS` when the namespace is truthy and `createElement`
otherwise, or a text node. -/
def createNode {K : Type} (nsURI : Val) : VNode K → HNode
  | .elem e _ _ => .elem e (truthy nsURI) none [] [] [] []
  | .text d => .text d
  | .comp _ _ _ => .text .jsUndefined

/-- The node builder of `src/unnamed/part_000` lines 127-128: always
`createElement`, no namespace handling. -/
def createNodeD {K : Type} : VNode K → HNode
  | .elem e _ _ => .elem e false none [] [] [] []
  | .text d => .text d
  | .comp _ _ _ => .text .jsUndefined

/-- The property-diff loop of `src/o.mjs` lines 288-296: for each
descriptor property, compare against the host node's current property
value and, when different, either `setAttribute` (namespaced) or assign
the property.  A net write is counted when the stored value actually
changes (the property branch always changes it, because of the guard; the
attribute branch may rewrite an equal attribute, since the guard reads
the property bag, which `setAttribute` does not touch). -/
def writeProps (nsURI : Val) : List (String × Val) → HNode → St → HNode × St
  | [], n, st => (n, st)
  | (key, pv) :: rest, n, st =>
    if propGet n key ≠ pv then
      if truthy nsURI then
        let new := valToString pv
        let st' := if attrGet n key = some new then st else bumpW st
        writeProps nsURI rest (attrSet n key new) st'
      else
        writeProps nsURI rest (propSet n key pv) (bumpW st)
    else writeProps nsURI rest n st

/-- The property-diff loop of `src/unnamed/part_000` lines 137-141: plain
property assignment under the same difference guard. -/
def writePropsD : List (String × Val) → HNode → St → HNode × St
  | [], n, st => (n, st)
  | (key, pv) :: rest, n, st =>
    if propGet n key ≠ pv then writePropsD rest (propSet n key pv) (bumpW st)
    else writePropsD rest n st

/-- The effect flush over one instance's hook array
(`src/o.mjs` line 305): a pending callback is invoked (logged), its
return value recorded as the cell's cleanup, and the pending marker
cleared. -/
def flushHooks (cbRet : Nat → Option Nat) : List Hook → St → List Hook × St
  | [], st => ([], st)
  | hk :: rest, st =>
    match hk.cb with
    | some t =>
      let (rest', st') := flushHooks cbRet rest (logTok st t)
      ({ hk with cleanup := cbRet t, cb := none } :: rest', st')
    | none =>
      let (rest', st') := flushHooks cbRet rest st
      (hk :: rest', st')

/-- The effect flush over the whole new hook store
(`src/o.mjs` lines 304-306), in store insertion order. -/
def flushStore (cbRet : Nat → Option Nat) :
    List (String × List Hook) → St → List (String × List Hook) × St
  | [], st => ([], st)
  | (k, cells) :: rest, st =>
    let (cells', st') := flushHooks cbRet cells st
    let (rest', st'') := flushStore cbRet rest st'
    ((k, cells') :: rest', st'')

/-- Invoke the recorded cleanups of one instance's hook array, in hook
order (`hs[k].map(h => h.cleanup && h.cleanup())`). -/
def cleanupHooks : List Hook → St → St
  | [], st => st
  | hk :: rest, st =>
    match hk.cleanup with
    | some t => cleanupHooks rest (logTok st t)
    | none => cleanupHooks rest st

/-- The unmount pass of `src/o.mjs` lines 312-314: every key of the old
store that is absent from the new store (an array stored under the key,
even empty, is truthy and is kept) has its cells' cleanups invoked. -/
def unmountPhase (hs newStore : List (String × List Hook)) (st : St) : St :=
  (hs.filter fun p => (alGet newStore p.1).isNone).foldl
    (fun st' p => cleanupHooks p.2 st') st

/-- The per-pass accumulator of the `vlist.forEach` loop: the implicit-key
counters `ids`, the new hook store being built into `dom.h`, the host
children already synchronised (`before`, positions `0..i-1`), the host
children not yet consumed (`after`, positions `i..`), and the
instrumentation state. -/
structure Acc (K : Type) where
  ids : List (K × Nat)
  store : List (String × List Hook)
  before : List HNode
  after : List HNode
  st : St

/-- One iteration of the `vlist.forEach` body of `src/o.mjs` lines
260-301, for the host child at the current position (the head of
`acc.after`): resolve the component chain, decide reuse via `mismatchO`
(`insertBefore` places a fresh node at the current position and leaves
the old child to be examined at the next position), then either tag the
element, diff its properties and recurse into its children with `r`
(the render function at the remaining fuel), or assign the text payload. -/
def stepO {K : Type} [DecidableEq K]
    (r : List (VNode K) → HNode → Val → St → Option (HNode × St))
    (fuel : Nat) (env : Env K) (ns : Val) (hs : List (String × List Hook))
    (acc : Acc K) (v : VNode K) : Option (Acc K) := do
  let (v, ids, store) ← resolveComp env fuel v acc.ids hs acc.store
  let nsURI := if truthy ns then ns else vnodeXmlns v
  let (node, rest) :=
    if mismatchO acc.after.head? v then (createNode nsURI v, acc.after)
    else ((acc.after.head?).getD (.text .jsUndefined), acc.after.tail)
  match v with
  | .elem e p c =>
    let node := setE node (some e)
    let (node, st) := writeProps nsURI p node acc.st
    let (node, st) ← r c node nsURI st
    pure ⟨ids, store, acc.before ++ [node], rest, st⟩
  | .text d =>
    let st := if hnodeData node = d then acc.st else bumpW acc.st
    pure ⟨ids, store, acc.before ++ [setData node d], rest, st⟩
  | .comp _ _ _ => none

/-- `render` of `src/o.mjs` lines 251-318.  The container's hook store is
taken as the old store and reset; each descriptor is processed by
`stepO`; pending effects of the new store are flushed; unmounted
instances' cleanups run; host children beyond the descriptor list are
removed, each torn down through a recursive `render([], child)` so nested
cleanups fire.  The fuel bounds recursion depth; rendering a non-empty
list into a text node is a host-API error (`none`). -/
def renderO {K : Type} [DecidableEq K] (env : Env K) :
    Nat → List (VNode K) → HNode → Val → St → Option (HNode × St)
  | 0, _, _, _, _ => none
  | fuel + 1, vlist, dom, ns, st =>
    match dom with
    | .text d => if vlist.isEmpty then some (.text d, st) else none
    | .elem tag nsF e props attrs children hstore => do
      let acc ← vlist.foldlM (stepO (renderO env fuel) fuel env ns hstore)
        ⟨[], [], [], children, st⟩
      let (store', st₁) := flushStore env.cbRet acc.store acc.st
      let st₂ := unmountPhase hstore store' st₁
      let st₃ ← acc.after.foldlM
        (fun s c => (renderO env fuel [] c .jsUndefined s).map Prod.snd) st₂
      pure (.elem tag nsF e props attrs acc.before store', st₃)

/-! ## The duplicated reconciler of `src/unnamed/part_000` -/

/-- One iteration of the `vlist.forEach` body of `src/unnamed/part_000`
lines 114-146: as `stepO`, but with the variant reuse test `mismatchD`,
no namespace handling, and plain property assignment. -/
def stepD {K : Type} [DecidableEq K]
    (r : List (VNode K) → HNode → St → Option (HNode × St))
    (fuel : Nat) (env : Env K) (hs : List (String × List Hook))
    (acc : Acc K) (v : VNode K) : Option (Acc K) := do
  let (v, ids, store) ← resolveComp env fuel v acc.ids hs acc.store
  let (node, rest) :=
    if mismatchD acc.after.head? v then (createNodeD v, acc.after)
    else ((acc.after.head?).getD (.text .jsUndefined), acc.after.tail)
  match v with
  | .elem e p c =>
    let node := setE node (some e)
    let (node, st) := writePropsD p node acc.st
    let (node, st) ← r c node st
    pure ⟨ids, store, acc.before ++ [node], rest, st⟩
  | .text d =>
    let st := if hnodeData node = d then acc.st else bumpW acc.st
    pure ⟨ids, store, acc.before ++ [setData node d], rest, st⟩
  | .comp _ _ _ => none

/-- `render` of `src/unnamed/part_000` lines 105-150: no effect flush, no
unmount pass, and trailing host children are removed without recursive
teardown. -/
def renderDup {K : Type} [DecidableEq K] (env : Env K) :
    Nat → List (VNode K) → HNode → St → Option (HNode × St)
  | 0, _, _, _ => none
  | fuel + 1, vlist, dom, st =>
    match dom with
    | .text d => if vlist.isEmpty then some (.text d, st) else none
    | .elem tag nsF e props attrs children hstore => do
      let acc ← vlist.foldlM (stepD (renderDup env fuel) fuel env hstore)
        ⟨[], [], [], children, st⟩
      pure (.elem tag nsF e props attrs acc.before acc.store, acc.st)

/-! ## Dispatch -/

/-- Overwrite the `value` slot of cell `i` of the instance keyed `k` in a
container's hook store.  This realises the aliasing of the source: the
`hook` object captured by a `dispatch` closure is the same object stored
in `dom.h[k][i]`, and it stays the same object across subsequent renders
because `getHook` returns existing cells. -/
def setHookValue : HNode → String → Nat → (HookVal → HookVal) → HNode
  | .elem t nf e p a c hsStore, k, i, f =>
    match alGet hsStore k with
    | some cells =>
      match cells.get? i with
      | some cell =>
        .elem t nf e p a c
          (alSet hsStore k (cells.set i { cell with value := f cell.value }))
      | none => .elem t nf e p a c hsStore
    | none => .elem t nf e p a c hsStore
  | n, _, _, _ => n

/-- The body of the `dispatch` closure of `src/o.mjs` lines 176-179:
`hook.value = reducer(hook.value, action); update()` — write the reduced
value through the alias into the container's hook store, then run the
captured update trigger, which re-renders the same descriptor list into
the same container (`forceUpdate = () => render(vlist, dom)`,
line 262). -/
def runDispatch {K : Type} [DecidableEq K] (env : Env K) (fuel : Nat)
    (d : DispatchAction) (k : String) (action : Val)
    (vlist : List (VNode K)) (dom : HNode) (st : St) : Option (HNode × St) :=
  renderO env fuel vlist
    (setHookValue dom k d.idx (fun hv => .val (d.reducer hv.asVal action)))
    .jsUndefined st

/-! ## The template parser `x` of `src/o.mjs` lines 49-128

Placeholder fields are modelled as primitive values (`Val`); the modelled
fragment covers string/number placeholders in tag, attribute and text
positions.  A failed regular-expression match crashes the JavaScript
parser (`m[0]` on `null`); that and an `undefined` overall result are
both `none`. -/

/-- The three parser states of `src/o.mjs` lines 55-57. -/
inductive PMode where
  | text
  | openTag
  | closeTag
  deriving DecidableEq

/-- A stack entry: an `h(val, {})` node under construction (`e` may be a
placeholder value; the synthetic root has `e = undefined`). -/
structure PNode (K : Type) where
  e : Val
  p : List (String × Val)
  c : List (VNode K)

/-- A character of the `\w` class: ASCII letters, digits, underscore. -/
def isWordChar (ch : Char) : Bool := ch.isAlpha || ch.isDigit || ch = '_'

/-- The match `/^(\w+)/`: leading word characters, at least one.  (Parser
strings are handled as character lists.) -/
def matchWord (s : List Char) : Option (List Char × List Char) :=
  let tok := s.takeWhile isWordChar
  if tok.isEmpty then none else some (s.drop tok.length, tok)

/-- The match `/^([^<]+)/`: leading non-`<` characters, at least one. -/
def matchText (s : List Char) : Option (List Char × List Char) :=
  let tok := s.takeWhile (· ≠ '<')
  if tok.isEmpty then none else some (s.drop tok.length, tok)

/-- The match `/^([\w-]+)=/`: an attribute name followed by `=`. -/
def matchAttrName (s : List Char) : Option (List Char × List Char) :=
  let tok := s.takeWhile fun ch => isWordChar ch || ch = '-'
  if tok.isEmpty then none
  else
    match s.drop tok.length with
    | '=' :: rest => some (rest, tok)
    | _ => none

/-- The match `/^"([^"]*)"/`: a double-quoted attribute value (the capture
may be empty). -/
def matchQuoted (s : List Char) : Option (List Char × List Char) :=
  match s with
  | '"' :: rest =>
    let body := rest.takeWhile (· ≠ '"')
    match rest.drop body.length with
    | '"' :: rest' => some (rest', body)
    | _ => none
  | _ => none

/-- `readToken` of `src/o.mjs` lines 61-68: drop `i` characters; on an
empty remainder return the placeholder field, otherwise apply the
regular-expression match and return the remainder and the captured
group (a string value). -/
def readToken (s : List Char) (i : Nat)
    (m : List Char → Option (List Char × List Char)) (field : Val) :
    Option (List Char × Val) :=
  let s := s.drop i
  if s.isEmpty then some (s, field)
  else (m s).map fun p => (p.1, .str (String.mk p.2))

/-- Closing a stack entry into a virtual node (`stack.pop()` pushed onto
the parent's children): the recorded tag value becomes the element name
(string tags are the modelled fragment; other values are string-coerced
as the DOM would). -/
def pnodeClose {K : Type} (n : PNode K) : VNode K :=
  .elem (valToString n.e) n.p n.c

/-- The `c.concat(fields[i])` step run after each template chunk ends in
text mode: appends the chunk's placeholder — for the final chunk the
placeholder is `undefined` and an `undefined` child is appended, which is
invisible through `stack[0].c[0]`. -/
def concatField {K : Type} (c : List (VNode K)) (field : Val) :
    List (VNode K) :=
  c ++ [.text field]

/-- The `while (s)` loop of `src/o.mjs` lines 70-122 over one template
chunk (the chunk's placeholder field in hand), fuelled by the chunk
length (every iteration on a non-empty string consumes at least one
character).  The `console.assert` calls of the source log but do not
halt, so the corresponding paths continue as the code does. -/
def parseChunk {K : Type} (field : Val) :
    Nat → List Char → PMode → List (PNode K) →
    Option (PMode × List (PNode K))
  | 0, s, mode, stack => if s.isEmpty then some (mode, stack) else none
  | fuel + 1, s0, mode, stack =>
    if s0.isEmpty then some (mode, stack)
    else
      let s := s0.dropWhile Char.isWhitespace
      match mode with
      | .text =>
        match s with
        | '<' :: '/' :: _ =>
          (readToken s 2 matchWord field).bind fun p =>
            parseChunk field fuel p.1 .closeTag stack
        | '<' :: _ =>
          (readToken s 1 matchWord field).bind fun p =>
            parseChunk field fuel p.1 .openTag (⟨p.2, [], []⟩ :: stack)
        | _ =>
          (readToken s 0 matchText (.str "")).bind fun p =>
            match stack with
            | top :: rest =>
              parseChunk field fuel p.1 .text
                ({ top with c := top.c ++ [.text p.2] } :: rest)
            | [] => none
      | .openTag =>
        match s with
        | '/' :: '>' :: rest0 =>
          match stack with
          | top :: parent :: rest =>
            parseChunk field fuel rest0 .text
              ({ parent with c := parent.c ++ [pnodeClose top] } :: rest)
          | _ => none
        | '>' :: rest0 => parseChunk field fuel rest0 .text stack
        | _ =>
          (readToken s 0 matchAttrName (.str "")).bind fun pn =>
            (readToken pn.1 0 matchQuoted field).bind fun pv =>
              match stack with
              | top :: rest =>
                parseChunk field fuel pv.1 .openTag
                  ({ top with p := alSet top.p (valToString pn.2) pv.2 } :: rest)
              | [] => none
      | .closeTag =>
        match stack with
        | top :: parent :: rest =>
          parseChunk field fuel (s.drop 1) .text
            ({ parent with c := parent.c ++ [pnodeClose top] } :: rest)
        | _ => none

/-- The `strings.forEach` of `src/o.mjs` lines 69-126: parse each chunk,
then in text mode concatenate the chunk's placeholder onto the
top-of-stack children. -/
def parseChunks {K : Type} :
    List String → List Val → PMode → List (PNode K) →
    Option (PMode × List (PNode K))
  | [], _, mode, stack => some (mode, stack)
  | s :: rest, fields, mode, stack =>
    let field := (fields.head?).getD .jsUndefined
    (parseChunk field (s.length + 1) s.data mode stack).bind fun pm =>
      let stack' :=
        if pm.1 = PMode.text then
          match pm.2 with
          | top :: r => { top with c := concatField top.c field } :: r
          | [] => []
        else pm.2
      parseChunks rest fields.tail pm.1 stack'

/-- The template parser `x` of `src/o.mjs` lines 49-128: parse all chunks
against a stack seeded with the synthetic root `h()` and return
`stack[0].c[0]` (the root is the last entry of the head-first stack).
`none` covers both a crash and an `undefined` result. -/
def x {K : Type} (strings : List String) (fields : List Val) :
    Option (VNode K) :=
  (parseChunks strings fields .text [⟨.jsUndefined, [], []⟩]).bind fun pm =>
    (pm.2.getLast?).bind fun root => root.c.head?

/-! ## Observations and well-formedness -/

/-- The root container `document.body`: an initially empty element. -/
def body0 : HNode := .elem "body" false none [] [] [] []

/-- The initial instrumentation state. -/
def st0 : St := ⟨0, []⟩

/-- The payload of the container's `i`-th host child. -/
def childData (dom : HNode) (i : Nat) : Option Val :=
  match dom with
  | .elem _ _ _ _ _ cs _ => (cs.get? i).map hnodeData
  | .text _ => none

/-- The stored state value of hook cell `i` of the instance keyed `k` in a
container's hook store. -/
def hookVal (dom : HNode) (k : String) (i : Nat) : Val :=
  match dom with
  | .elem _ _ _ _ _ _ hs =>
    ((((alGet hs k).getD []).get? i).map fun c => c.value.asVal).getD .jsUndefined
  | .text _ => .jsUndefined

/-- JavaScript `v + 1` on a number, for the `setN(n + 1)` click handlers of
the scenarios. -/
def valAdd1 : Val → Val
  | .num n => .num (n + 1)
  | v => v

/-- Duplicate-free property keys.  JavaScript property bags cannot repeat a
key; the association-list model can, so well-formed descriptors exclude
it. -/
def nodupKeys (p : List (String × Val)) : Bool :=
  match p with
  | [] => true
  | (k, _) :: rest => !(rest.any fun q => q.1 = k) && nodupKeys rest

mutual

/-- A well-formed concrete descriptor: element or text only (no component
nodes) with duplicate-free property bags throughout. -/
def wfV {K : Type} : VNode K → Bool
  | .elem _ p c => nodupKeys p && wfList c
  | .text _ => true
  | .comp _ _ _ => false

/-- `wfV` on every member. -/
def wfList {K : Type} : List (VNode K) → Bool
  | [] => true
  | v :: rest => wfV v && wfList rest

end

mutual

/-- A concrete descriptor tree (element or text only) none of whose
elements carries a truthy `xmlns` property. -/
def noXmlnsV {K : Type} : VNode K → Bool
  | .elem _ p c => !truthy ((alGet p "xmlns").getD .jsUndefined) && noXmlnsList c
  | .text _ => true
  | .comp _ _ _ => false

/-- `noXmlnsV` on every member. -/
def noXmlnsList {K : Type} : List (VNode K) → Bool
  | [] => true
  | v :: rest => noXmlnsV v && noXmlnsList rest

end

/-- The cleanup tokens recorded in one instance's hook array, in
hook-acquisition order. -/
def instCleanups (cells : List Hook) : List Nat :=
  cells.filterMap fun c => c.cleanup

/-- Iterated render passes of the same descriptor list into the same
container (successive `forceUpdate`-style re-renders). -/
def renderIter {K : Type} [DecidableEq K] (env : Env K) (fuel : Nat)
    (vlist : List (VNode K)) : Nat → HNode × St → Option (HNode × St)
  | 0, p => some p
  | m + 1, p =>
    (renderO env fuel vlist p.1 .jsUndefined p.2).bind (renderIter env fuel vlist m)

/-! ## Concrete scenario components -/

/-- The counter component of the state-hook scenarios: `useState 0`,
rendering the current value as its text output.  Its source text is "C"
for implicit-key purposes. -/
def counterEnv : Env Unit where
  interp := fun _ _ _ s =>
    let ((n, _), s') := useState (.num 0) s
    (.text n, s')
  src := fun _ => "C"
  cbRet := fun _ => none

/-- The dispatch data `useState 0` hands back on a fresh cell: the
assignment reducer, cell index 0. -/
def counterDispatch : DispatchAction := ((useState (.num 0)) ⟨[], 0⟩).1.2

/-- A single un-keyed counter instance; its implicit key is `"C2"`. -/
def counterVList : List (VNode Unit) := [.comp () [] []]

/-- Clicking the counter's button: the closure `() => setN(n + 1)` invokes
the setter with the currently rendered value plus one. -/
def counterClick (p : HNode × St) : Option (HNode × St) :=
  runDispatch counterEnv 10 counterDispatch "C2"
    (valAdd1 (hookVal p.1 "C2" 0)) counterVList p.1 p.2

/-- First render of the counter scenario. -/
def counterRun0 : Option (HNode × St) :=
  renderO counterEnv 10 counterVList body0 .jsUndefined st0

/-- After one click (one independent render pass). -/
def counterRun1 : Option (HNode × St) := counterRun0.bind counterClick

/-- After two clicks. -/
def counterRun2 : Option (HNode × St) := counterRun1.bind counterClick

/-- The effect component of the effect-hook scenarios: `useEffect` with
callback token 0 and an empty dependency list, rendering fixed text.
The callback returns no cleanup. -/
def effEnv : Env Unit where
  interp := fun _ _ _ s =>
    let (_, s') := useEffect 0 [] s
    (.text (.str "hi"), s')
  src := fun _ => "E"
  cbRet := fun _ => none

/-- The same component calling `useEffect` with no dependency-list
argument at all (the source's `args = []` default applies). -/
def effNoArgsEnv : Env Unit where
  interp := fun _ _ _ s =>
    let (_, s') := useEffectNoArgs 0 s
    (.text (.str "hi"), s')
  src := fun _ => "E"
  cbRet := fun _ => none

/-- The effect component whose callback (token 0) returns a cleanup
callback (token 1). -/
def cleanEnv : Env Unit where
  interp := fun _ _ _ s =>
    let (_, s') := useEffect 0 [] s
    (.text (.str "hi"), s')
  src := fun _ => "E"
  cbRet := fun t => if t = 0 then some 1 else none

/-- A single effect-component instance. -/
def effVList : List (VNode Unit) := [.comp () [] []]

/-- The keyed-reorder scenario, first markup: counters keyed "a" then "b". -/
def kVListA : List (VNode Unit) :=
  [.comp () [("k", .str "a")] [], .comp () [("k", .str "b")] []]

/-- The keyed-reorder scenario, swapped markup: keys "b" then "a". -/
def kVListB : List (VNode Unit) :=
  [.comp () [("k", .str "b")] [], .comp () [("k", .str "a")] []]

/-- Click the keyed counter instance `key` while markup A is mounted. -/
def kClick (key : String) (p : HNode × St) : Option (HNode × St) :=
  runDispatch counterEnv 10 counterDispatch key
    (valAdd1 (hookVal p.1 key 0)) kVListA p.1 p.2

/-- Mount markup A, bump "a" once and "b" twice, then render the swapped
markup B into the same container. -/
def kRun : Option (HNode × St) :=
  (((renderO counterEnv 10 kVListA body0 .jsUndefined st0).bind
    (kClick "a")).bind (kClick "b")).bind (kClick "b") |>.bind fun p =>
    renderO counterEnv 10 kVListB p.1 .jsUndefined p.2

/-! ## Values appearing in the concrete theorems -/

/-- The implicit instance key for component `f` under the current per-pass
counters: `'' + v.e + (ids[v.e] = (ids[v.e] || 1) + 1)`. -/
def autoKey {K : Type} [DecidableEq K] (env : Env K) (f : K)
    (ids : List (K × Nat)) : String :=
  env.src f ++ toString ((alGet ids f).getD 1 + 1)

/-- The host tree after the first render of the effect scenario: the text
child and the instance's hook store under the implicit key `"E2"`. -/
def effDom1 : HNode :=
  .elem "body" false none [] [] [.text (.str "hi")]
    [("E2", [⟨.deps [], none, none⟩])]

/-- The instrumentation state after the first render of the effect
scenario: the effect callback ran once, no net host writes. -/
def effSt1 : St := ⟨0, [0]⟩

/-- Mount the cleanup scenario (effect callback 0 returning cleanup 1). -/
def cleanRun1 : Option (HNode × St) :=
  renderO cleanEnv 10 effVList body0 .jsUndefined st0

/-- Unmount it: render the empty descriptor list into the container. -/
def cleanRun2 : Option (HNode × St) :=
  cleanRun1.bind fun p => renderO cleanEnv 10 [] p.1 .jsUndefined p.2

/-- Render the empty list once more. -/
def cleanRun3 : Option (HNode × St) :=
  cleanRun2.bind fun p => renderO cleanEnv 10 [] p.1 .jsUndefined p.2

/-- Witness descriptor for the idempotence theorem. -/
def idemVL : List (VNode Unit) :=
  [h "div" [("a", .str "b")] [.text (.str "t")]]

/-- The host tree after rendering `idemVL` into the empty body. -/
def idemDom1 : HNode :=
  .elem "body" false none [] []
    [.elem "div" false (some "div") [("a", .str "b")] [] [.text (.str "t")] []]
    []

/-- A descriptor list whose element carries a truthy `xmlns` property. -/
def svgVL : List (VNode Unit) := [.elem "svg" [("xmlns", .str "u")] []]

/-- Whether the container's `i`-th child element was created through
`createElementNS`. -/
def childNsFlag (dom : HNode) (i : Nat) : Option Bool :=
  match dom with
  | .elem _ _ _ _ _ cs _ =>
    (cs.get? i).map fun c =>
      match c with
      | .elem _ nf _ _ _ _ _ => nf
      | .text _ => false
  | .text _ => none

/-! # Theorems

## General helper lemmas -/

/-- A render pass that maps a configuration to itself maps every number of
iterated re-renders of that configuration to itself. -/
theorem renderIter_fix {K : Type} [DecidableEq K] (env : Env K) (fuel : Nat)
    (vlist : List (VNode K)) (p : HNode × St)
    (hfix : renderO env fuel vlist p.1 .jsUndefined p.2 = some p) :
    ∀ m, renderIter env fuel vlist m p = some p := by
  intro m
  induction m with
  | zero => rfl
  | succ n ih => simp [renderIter, hfix, ih]

/-- `cleanupHooks` appends exactly the recorded cleanups, in hook order. -/
theorem cleanupHooks_log (cells : List Hook) :
    ∀ st, cleanupHooks cells st =
      { st with log := st.log ++ instCleanups cells } := by
  induction cells with
  | nil => intro st; simp [cleanupHooks, instCleanups]
  | cons hk rest ih =>
    intro st
    cases hcl : hk.cleanup <;>
      simp [cleanupHooks, hcl, instCleanups, List.filterMap_cons, ih, logTok]

/-- Against an empty new store, the unmount pass fires every instance's
cleanups, instances in store order and cells in hook order. -/
theorem unmountPhase_all (hsl : List (String × List Hook)) :
    ∀ st, unmountPhase hsl [] st =
      { st with log := st.log ++ hsl.flatMap fun q => instCleanups q.2 } := by
  induction hsl with
  | nil => intro st; simp [unmountPhase]
  | cons q rest ih =>
    intro st
    have h1 : unmountPhase (q :: rest) [] st =
        unmountPhase rest [] (cleanupHooks q.2 st) := by
      simp [unmountPhase, alGet]
    rw [h1, ih, cleanupHooks_log]
    simp

/-! ## C1: a missing dependency list -/

/-- C1 counterexample: the claim says a `useEffect` call with no
dependency-list argument marks the callback on *every* render pass.  On a
pass after the first (the cell already stores the defaulted empty list),
the call leaves the cell untouched: the callback is not marked. -/
theorem useEffect_missing_deps_second_pass_unmarked :
    useEffectNoArgs 5 ⟨[⟨.deps [], none, none⟩], 0⟩ =
      ((), ⟨[⟨.deps [], none, none⟩], 1⟩) := rfl

/-- C1 amended: a `useEffect` call with no dependency-list argument
defaults the list to the empty list, so the callback is marked on the
instance's first render pass only and the effect runs exactly once — on
every later pass the cell is left untouched; iterating any number of
re-renders of the scenario component never re-invokes the callback. -/
theorem useEffect_missing_deps_runs_once :
    (∀ cb, (useEffectNoArgs cb ⟨[], 0⟩).2 = ⟨[⟨.deps [], some cb, none⟩], 1⟩) ∧
    (∀ cb c cl, (useEffectNoArgs cb ⟨[⟨.deps [], c, cl⟩], 0⟩).2 =
      ⟨[⟨.deps [], c, cl⟩], 1⟩) ∧
    ∀ m, (renderIter effNoArgsEnv 10 effVList (m + 1) (body0, st0)).map
      (fun p => p.2.log) = some [0] := by
  refine ⟨fun cb => rfl, fun cb c cl => rfl, fun m => ?_⟩
  have hfix : renderO effNoArgsEnv 10 effVList effDom1 .jsUndefined effSt1 =
      some (effDom1, effSt1) := rfl
  have h2 := renderIter_fix effNoArgsEnv 10 effVList (effDom1, effSt1) hfix m
  have h3 : renderIter effNoArgsEnv 10 effVList (m + 1) (body0, st0) =
      renderIter effNoArgsEnv 10 effVList m (effDom1, effSt1) := by
    show (renderO effNoArgsEnv 10 effVList body0 .jsUndefined st0).bind
      (renderIter effNoArgsEnv 10 effVList m) = _
    rw [show renderO effNoArgsEnv 10 effVList body0 .jsUndefined st0 =
      some (effDom1, effSt1) from rfl]
    rfl
  rw [h3, h2]
  rfl

/-! ## C2: the dependency-list comparison -/

/-- C2 counterexample: the claim says a dependency list of different
length than the stored one marks the cell.  With stored list `[1]` and new
list `[]` the lengths differ, yet the cell is left untouched. -/
theorem useEffect_shorter_list_untouched :
    (useEffect 7 [] ⟨[⟨.deps [.num 1], none, none⟩], 0⟩).2 =
      ⟨[⟨.deps [.num 1], none, none⟩], 1⟩ ∧
    ([Val.num 1] : List Val).length ≠ ([] : List Val).length :=
  ⟨rfl, by decide⟩

/-- C2 amended: the cell is marked and the new list stored iff the stored
value is falsy (`undefined` on first run) or some entry of the new list
differs from the stored value at the same index — the comparison ranges
over the *new* list's indices only.  A longer new list counts as changed
only because its extra entries differ from `undefined`; an empty new list
never counts as changed against a stored array, so a strictly shorter new
list whose entries all match leaves the cell untouched. -/
theorem useEffect_changed_characterisation :
    (∀ a b, changed a b = true ↔
      truthyH a = false ∨ ∃ i, i < b.length ∧ b.getD i .jsUndefined ≠ jsIndex a i) ∧
    (∀ l, changed (.deps l) [] = false) ∧
    (∀ cb args hk, changed hk.value args = true →
      (useEffect cb args ⟨[hk], 0⟩).2 =
        ⟨[⟨.deps args, some cb, hk.cleanup⟩], 1⟩) ∧
    (∀ cb args hk, changed hk.value args = false →
      (useEffect cb args ⟨[hk], 0⟩).2 = ⟨[hk], 1⟩) := by
  refine ⟨fun a b => ?_, fun l => rfl, fun cb args hk hch => ?_, fun cb args hk hch => ?_⟩
  · simp only [changed, Bool.or_eq_true, Bool.not_eq_true', List.any_eq_true,
      decide_eq_true_eq, List.exists_mem_enum]
    refine or_congr Iff.rfl ?_
    constructor
    · rintro ⟨i, hlt, hne⟩
      exact ⟨i, hlt, by
        rwa [List.getD_eq_getElem?_getD, List.getElem?_eq_getElem hlt]⟩
    · rintro ⟨i, hlt, hne⟩
      exact ⟨i, hlt, by
        rwa [List.getD_eq_getElem?_getD, List.getElem?_eq_getElem hlt] at hne⟩
  · unfold useEffect getHook
    simp [hch]
  · unfold useEffect getHook
    simp [hch]

/-- C2 amended witness: a fresh cell (`undefined` stored value) with the
empty new list counts as changed, and the `useEffect` call marks it. -/
theorem useEffect_changed_characterisation_witness :
    changed (.val .jsUndefined) [] = true ∧
    (useEffect 3 [] ⟨[⟨.val .jsUndefined, none, none⟩], 0⟩).2 =
      ⟨[⟨.deps [], some 3, none⟩], 1⟩ :=
  ⟨by decide,
    useEffect_changed_characterisation.2.2.1 3 [] ⟨.val .jsUndefined, none, none⟩
      (by decide)⟩

/-! ## C3: an empty dependency list runs exactly once -/

/-- C3: an effect with an empty dependency list is marked on the
instance's first render pass (fresh cell) and never on a later pass (the
cell stores the empty list, and the shallow diff over the empty list
reports no change); in the render scenario the callback is invoked
exactly once, on the first pass, for any number of subsequent render
passes. -/
theorem useEffect_empty_deps_once :
    (∀ cb, (useEffect cb [] ⟨[], 0⟩).2 = ⟨[⟨.deps [], some cb, none⟩], 1⟩) ∧
    (∀ cb c cl, (useEffect cb [] ⟨[⟨.deps [], c, cl⟩], 0⟩).2 =
      ⟨[⟨.deps [], c, cl⟩], 1⟩) ∧
    ∀ m, (renderIter effEnv 10 effVList (m + 1) (body0, st0)).map
      (fun p => p.2.log) = some [0] := by
  refine ⟨fun cb => rfl, fun cb c cl => rfl, fun m => ?_⟩
  have hfix : renderO effEnv 10 effVList effDom1 .jsUndefined effSt1 =
      some (effDom1, effSt1) := rfl
  have h2 := renderIter_fix effEnv 10 effVList (effDom1, effSt1) hfix m
  have h3 : renderIter effEnv 10 effVList (m + 1) (body0, st0) =
      renderIter effEnv 10 effVList m (effDom1, effSt1) := by
    show (renderO effEnv 10 effVList body0 .jsUndefined st0).bind
      (renderIter effEnv 10 effVList m) = _
    rw [show renderO effEnv 10 effVList body0 .jsUndefined st0 =
      some (effDom1, effSt1) from rfl]
    rfl
  rw [h3, h2]
  rfl

/-! ## C4: keyed reordering -/

/-- C4: two counter instances keyed "a" and "b" rendered in order [a, b],
bumped to 1 and 2 respectively, then re-rendered in swapped order [b, a]:
the rendered values follow the keys (position 0 now shows b's count 2,
position 1 shows a's count 1), and the hook store still associates 1 with
"a" and 2 with "b". -/
theorem keyed_reorder_state_follows_key :
    kRun.map (fun p =>
      (childData p.1 0, childData p.1 1, hookVal p.1 "a" 0, hookVal p.1 "b" 0)) =
      some (some (.num 2), some (.num 1), .num 1, .num 2) := rfl

/-! ## C5: the state hook -/

/-- C5: the setter returned by the state hook carries the assignment
reducer — it replaces the cell's value with its argument unconditionally —
and dispatching it re-renders; in the counter scenario the rendered text
progresses 0, then 1, then 2 across the two click-triggered render
passes. -/
theorem state_hook_scenario :
    (∀ y a, counterDispatch.reducer y a = a) ∧
    counterRun0.map (fun p => childData p.1 0) = some (some (.num 0)) ∧
    counterRun1.map (fun p => childData p.1 0) = some (some (.num 1)) ∧
    counterRun2.map (fun p => childData p.1 0) = some (some (.num 2)) :=
  ⟨fun _ _ => rfl, rfl, rfl, rfl⟩

/-! ## C6: unmount cleanup -/

/-- C6: unmounting the effect component (rendering the empty list) invokes
the recorded cleanup exactly once — the log is [effect 0, cleanup 1] after
the unmount and is unchanged by a further pass; in general, rendering the
empty list into a childless container whose old hook store is `hs` (all of
whose keys are then absent from the new, empty store) invokes exactly the
recorded cleanups of every instance, instances in store order and cells in
hook-acquisition order. -/
theorem unmount_cleanup_once :
    cleanRun2.map (fun p => p.2.log) = some [0, 1] ∧
    cleanRun3.map (fun p => p.2.log) = some [0, 1] ∧
    ∀ (K : Type) [DecidableEq K] (env : Env K) (fuel : Nat) (tag : String)
      (nf : Bool) (e : Option String) (props : List (String × Val))
      (attrs : List (String × String)) (hs : List (String × List Hook))
      (st : St),
      renderO env (fuel + 1) [] (.elem tag nf e props attrs [] hs) .jsUndefined st =
        some (.elem tag nf e props attrs [] [],
          { st with log := st.log ++ hs.flatMap fun q => instCleanups q.2 }) := by
  refine ⟨rfl, rfl, ?_⟩
  intro K instK env fuel tag nf e props attrs hs st
  simp [renderO, flushStore, unmountPhase_all]

/-! ## C8: the template parser against the builder -/

/-- C8: on simple markup the template parser produces exactly the
descriptor the explicit builder produces: `<div a="b"/>` equals
`h("div", {a: "b"})` (children default empty), and likewise for a plain
tag and for nesting with text. -/
theorem x_agrees_with_h :
    (x ["<div a=\"b\"/>"] [] : Option (VNode Unit)) =
      some (h "div" [("a", .str "b")] []) ∧
    (x ["<div></div>"] [] : Option (VNode Unit)) = some (h "div" [] []) ∧
    (x ["<p><i>Hello</i></p>"] [] : Option (VNode Unit)) =
      some (h "p" [] [h "i" [] [.text (.str "Hello")]]) :=
  ⟨rfl, rfl, rfl⟩

/-! ## C9: the explicit key property -/

/-- C9: the component-resolution step reads the explicit instance key from
the property named "k".  When that property is absent or falsy the
instance is recorded under the implicit key built from the component's
source text and the bumped per-pass occurrence counter; when it is truthy
the (string-coerced) property value is the key and the counter is not
bumped. -/
theorem instance_key_truthy_k {K : Type} [DecidableEq K] (env : Env K)
    (f : K) (p : List (String × Val)) (c : List (VNode K))
    (ids : List (K × Nat)) (hs store : List (String × List Hook))
    (fuel : Nat) :
    (truthy ((alGet p "k").getD .jsUndefined) = false →
      resolveComp env (fuel + 1) (.comp f p c) ids hs store =
        resolveComp env fuel
          (env.interp f p c ⟨(alGet hs (autoKey env f ids)).getD [], 0⟩).1
          (alSet ids f ((alGet ids f).getD 1 + 1)) hs
          (alSet store (autoKey env f ids)
            (env.interp f p c
              ⟨(alGet hs (autoKey env f ids)).getD [], 0⟩).2.hooks)) ∧
    (∀ kv, alGet p "k" = some kv → truthy kv = true →
      resolveComp env (fuel + 1) (.comp f p c) ids hs store =
        resolveComp env fuel
          (env.interp f p c ⟨(alGet hs (valToString kv)).getD [], 0⟩).1
          ids hs
          (alSet store (valToString kv)
            (env.interp f p c
              ⟨(alGet hs (valToString kv)).getD [], 0⟩).2.hooks)) := by
  constructor
  · intro hfalsy
    simp [resolveComp, autoKey, hfalsy]
  · intro kv hkv htruthy
    simp [resolveComp, hkv, htruthy]

/-- C9 witness: an explicit key that is the empty string (falsy) falls
back to the implicit key "C2" of the counter component. -/
theorem instance_key_truthy_k_witness :
    resolveComp counterEnv 2 (VNode.comp () [("k", Val.str "")] []) [] [] [] =
      some (.text (.num 0), [((), 2)],
        [("C2", [⟨.val (.num 0), none, none⟩])]) := by
  rw [(instance_key_truthy_k counterEnv () [("k", Val.str "")] [] [] [] [] 1).1
    (by decide)]
  rfl

/-! ## C10: the two render implementations -/

/-- Component resolution is the identity on an element node. -/
theorem resolveComp_elem {K : Type} [DecidableEq K] (env : Env K) (fuel : Nat)
    (e : String) (p : List (String × Val)) (c : List (VNode K))
    (ids : List (K × Nat)) (hs store : List (String × List Hook)) :
    resolveComp env fuel (.elem e p c) ids hs store =
      some (.elem e p c, ids, store) := by
  cases fuel <;> rfl

/-- Component resolution is the identity on a text node. -/
theorem resolveComp_text {K : Type} [DecidableEq K] (env : Env K) (fuel : Nat)
    (d : Val) (ids : List (K × Nat)) (hs store : List (String × List Hook)) :
    resolveComp env fuel (.text d : VNode K) ids hs store =
      some (.text d, ids, store) := by
  cases fuel <;> rfl

/-- With a falsy namespace the property loop of `o.mjs` coincides with the
duplicated variant's property loop. -/
theorem writeProps_falsy (nsURI : Val) (hns : truthy nsURI = false) :
    ∀ (p : List (String × Val)) (n : HNode) (st : St),
      writeProps nsURI p n st = writePropsD p n st := by
  intro p
  induction p with
  | nil => intro n st; rfl
  | cons q rest ih =>
    intro n st
    obtain ⟨key, pv⟩ := q
    simp [writeProps, writePropsD, hns, ih]

/-- The duplicated property loop only rewrites the property bag: tag,
namespace flag, identity, attributes, children, hook store are kept. -/
theorem writePropsD_shape (p : List (String × Val)) :
    ∀ (t : String) (nf : Bool) (e : Option String) (pr : List (String × Val))
      (ats : List (String × String)) (ch : List HNode)
      (hst : List (String × List Hook)) (st : St),
      ∃ pr' st', writePropsD p (.elem t nf e pr ats ch hst) st =
        (.elem t nf e pr' ats ch hst, st') := by
  induction p with
  | nil => intro t nf e pr ats ch hst st; exact ⟨pr, st, rfl⟩
  | cons q rest ih =>
    intro t nf e pr ats ch hst st
    obtain ⟨key, pv⟩ := q
    by_cases hg : propGet (.elem t nf e pr ats ch hst) key ≠ pv
    · obtain ⟨pr', st', hrec⟩ := ih t nf e (alSet pr key pv) ats ch hst (bumpW st)
      exact ⟨pr', st', by simpa [writePropsD, hg, propSet] using hrec⟩
    · obtain ⟨pr', st', hrec⟩ := ih t nf e pr ats ch hst st
      exact ⟨pr', st', by simpa [writePropsD, hg] using hrec⟩

/-- C10 counterexample: on an element carrying a truthy `xmlns` property
the two implementations produce observably different host trees from the
same empty container — `o.mjs` creates the child through
`createElementNS`, the duplicated variant does not — so the claimed
equality fails. -/
theorem render_variants_differ_on_xmlns :
    (renderO counterEnv 3 svgVL body0 .jsUndefined st0).map
      (fun p => childNsFlag p.1 0) = some (some true) ∧
    (renderDup counterEnv 3 svgVL body0 st0).map
      (fun p => childNsFlag p.1 0) = some (some false) ∧
    renderO counterEnv 3 svgVL body0 .jsUndefined st0 ≠
      renderDup counterEnv 3 svgVL body0 st0 := by
  refine ⟨rfl, rfl, fun hEq => ?_⟩
  have h1 : (renderO counterEnv 3 svgVL body0 .jsUndefined st0).map
      (fun p => childNsFlag p.1 0) = some (some true) := rfl
  rw [hEq] at h1
  have h2 : (renderDup counterEnv 3 svgVL body0 st0).map
      (fun p => childNsFlag p.1 0) = some (some false) := rfl
  rw [h2] at h1
  exact absurd h1 (by decide)

/-- C10 amended: for component-free descriptor lists none of whose
elements carries a truthy `xmlns` property, rendered with a falsy
namespace argument into an empty container (no children, no hook store),
the two render implementations return exactly the same host tree and
instrumentation state. -/
theorem render_variants_agree_no_xmlns {K : Type} [DecidableEq K]
    (env : Env K) :
    ∀ (fuel : Nat) (vlist : List (VNode K)) (tag : String) (nf : Bool)
      (e : Option String) (props : List (String × Val))
      (attrs : List (String × String)) (ns : Val) (st : St),
      truthy ns = false → noXmlnsList vlist = true →
      renderO env fuel vlist (.elem tag nf e props attrs [] []) ns st =
        renderDup env fuel vlist (.elem tag nf e props attrs [] []) st := by
  intro fuel
  induction fuel with
  | zero => intro vlist tag nf e props attrs ns st hns hx; rfl
  | succ f ih =>
    intro vlist tag nf e props attrs ns st hns hx
    have hstep : ∀ (v : VNode K), noXmlnsV v = true → ∀ (acc : Acc K),
        acc.after = [] →
        stepO (renderO env f) f env ns [] acc v =
          stepD (renderDup env f) f env [] acc v ∧
        ∀ acc', stepD (renderDup env f) f env [] acc v = some acc' →
          acc'.store = acc.store ∧ acc'.after = [] := by
      intro v hv acc hafter
      cases v with
      | comp g p c => simp [noXmlnsV] at hv
      | text d =>
        have hD : stepD (renderDup env f) f env [] acc (.text d) =
            some ⟨acc.ids, acc.store, acc.before ++ [.text d], [], acc.st⟩ := by
          simp [stepD, resolveComp_text, hafter, mismatchD, createNodeD,
            setData, hnodeData]
        have hO : stepO (renderO env f) f env ns [] acc (.text d) =
            some ⟨acc.ids, acc.store, acc.before ++ [.text d], [], acc.st⟩ := by
          simp [stepO, resolveComp_text, hafter, mismatchO, createNode,
            setData, hnodeData]
        refine ⟨hO.trans hD.symm, fun acc' h => ?_⟩
        rw [hD] at h
        have h' := Option.some.inj h
        rw [← h']
        exact ⟨rfl, rfl⟩
      | elem e2 p2 c2 =>
        obtain ⟨hx1, hx2⟩ : truthy ((alGet p2 "xmlns").getD .jsUndefined) = false ∧
            noXmlnsList c2 = true := by
          simpa [noXmlnsV, Bool.and_eq_true, Bool.not_eq_true'] using hv
        have hnsURI : truthy (if truthy ns then ns
            else vnodeXmlns (.elem e2 p2 c2 : VNode K)) = false := by
          simp [hns, vnodeXmlns, hx1]
        obtain ⟨pr', st', hwp⟩ :=
          writePropsD_shape p2 e2 false (some e2) [] [] [] [] acc.st
        have hih := ih c2 e2 false (some e2) pr' [] (if truthy ns then ns
          else vnodeXmlns (.elem e2 p2 c2 : VNode K)) st' hnsURI hx2
        have hD : stepD (renderDup env f) f env [] acc (.elem e2 p2 c2) =
            (renderDup env f c2 (.elem e2 false (some e2) pr' [] [] []) st').bind
              (fun q => some ⟨acc.ids, acc.store, acc.before ++ [q.1], [],
                q.2⟩) := by
          simp [stepD, resolveComp_elem, hafter, mismatchD, createNodeD, setE,
            hwp]
        have hO : stepO (renderO env f) f env ns [] acc (.elem e2 p2 c2) =
            (renderDup env f c2 (.elem e2 false (some e2) pr' [] [] []) st').bind
              (fun q => some ⟨acc.ids, acc.store, acc.before ++ [q.1], [],
                q.2⟩) := by
          simp [stepO, resolveComp_elem, hafter, mismatchO, createNode, setE,
            hnsURI, writeProps_falsy _ hnsURI, hwp, hih]
        refine ⟨hO.trans hD.symm, fun acc' h => ?_⟩
        rw [hD] at h
        cases hr : renderDup env f c2 (.elem e2 false (some e2) pr' [] [] []) st' with
        | none => rw [hr] at h; simp at h
        | some q =>
          rw [hr] at h
          simp only [Option.some_bind] at h
          have h' := Option.some.inj h
          rw [← h']
          exact ⟨rfl, rfl⟩
    have hfold : ∀ (vl : List (VNode K)), noXmlnsList vl = true →
        ∀ (acc : Acc K), acc.after = [] →
        (List.foldlM (stepO (renderO env f) f env ns []) acc vl =
          List.foldlM (stepD (renderDup env f) f env []) acc vl) ∧
        ∀ acc', List.foldlM (stepD (renderDup env f) f env []) acc vl =
            some acc' → acc'.store = acc.store ∧ acc'.after = [] := by
      intro vl
      induction vl with
      | nil =>
        intro _ acc hafter
        refine ⟨rfl, fun acc' h => ?_⟩
        simp only [List.foldlM_nil] at h
        have h' := Option.some.inj h
        rw [← h']
        exact ⟨rfl, hafter⟩
      | cons v rest ihv =>
        intro hxl acc hafter
        obtain ⟨hv, hrest⟩ : noXmlnsV v = true ∧ noXmlnsList rest = true := by
          simpa [noXmlnsList, Bool.and_eq_true] using hxl
        obtain ⟨hsEq, hsInv⟩ := hstep v hv acc hafter
        constructor
        · rw [List.foldlM_cons, List.foldlM_cons, hsEq]
          cases hres : stepD (renderDup env f) f env [] acc v with
          | none => rfl
          | some accM =>
            obtain ⟨hstoreM, hafterM⟩ := hsInv accM hres
            simpa using (ihv hrest accM hafterM).1
        · intro acc' h
          rw [List.foldlM_cons] at h
          cases hres : stepD (renderDup env f) f env [] acc v with
          | none => rw [hres] at h; simp at h
          | some accM =>
            rw [hres] at h
            simp only [bind, Option.bind] at h
            obtain ⟨hstoreM, hafterM⟩ := hsInv accM hres
            obtain ⟨hs1, hs2⟩ := (ihv hrest accM hafterM).2 acc' h
            exact ⟨hs1.trans hstoreM, hs2⟩
    obtain ⟨hEq, hInv⟩ := hfold vlist hx ⟨[], [], [], [], st⟩ rfl
    simp only [renderO, renderDup]
    rw [hEq]
    cases hres : List.foldlM (stepD (renderDup env f) f env [])
        (⟨[], [], [], [], st⟩ : Acc K) vlist with
    | none => rfl
    | some acc' =>
      obtain ⟨hstore', hafter'⟩ := hInv acc' hres
      simp only [bind, Option.bind]
      rw [hstore', hafter']
      simp [flushStore, unmountPhase]

/-- C10 amended witness: a small component-free list without `xmlns`
rendered into the empty body gives identical results. -/
theorem render_variants_agree_no_xmlns_witness :
    renderO counterEnv 5 idemVL (.elem "body" false none [] [] [] [])
        .jsUndefined st0 =
      renderDup counterEnv 5 idemVL (.elem "body" false none [] [] [] []) st0 :=
  render_variants_agree_no_xmlns counterEnv 5 idemVL "body" false none [] []
    .jsUndefined st0 (by decide) (by decide)

/-! ## C7: idempotence of re-rendering

Small lemmas about the object model, then the property-loop invariants,
then the main second-pass theorem. -/

theorem alGet_alSet_self {κ α : Type} [DecidableEq κ]
    (l : List (κ × α)) (k : κ) (v : α) : alGet (alSet l k v) k = some v := by
  induction l with
  | nil => simp [alGet, alSet]
  | cons q rest ih =>
    obtain ⟨k1, v1⟩ := q
    by_cases h : k1 = k
    · subst h; simp [alGet, alSet]
    · simp [alGet, alSet, h, ih]

theorem alGet_alSet_ne {κ α : Type} [DecidableEq κ]
    (l : List (κ × α)) (k k' : κ) (v : α) (h : k ≠ k') :
    alGet (alSet l k v) k' = alGet l k' := by
  induction l with
  | nil => simp [alGet, alSet, h]
  | cons q rest ih =>
    obtain ⟨k1, v1⟩ := q
    by_cases h1 : k1 = k
    · subst h1; simp [alGet, alSet, h]
    · simp [alGet, alSet, h1, ih]

theorem alSet_id {κ α : Type} [DecidableEq κ]
    (l : List (κ × α)) (k : κ) (v : α) (h : alGet l k = some v) :
    alSet l k v = l := by
  induction l with
  | nil => simp [alGet] at h
  | cons q rest ih =>
    obtain ⟨k1, v1⟩ := q
    by_cases h1 : k1 = k
    · subst h1
      simp [alGet] at h
      simp [alSet, h]
    · simp [alGet, h1] at h
      simp [alSet, h1, ih h]

theorem hnodeData_setData (n : HNode) (d : Val) :
    hnodeData (setData n d) = d := by
  cases n with
  | text _ => rfl
  | elem t nf e pr ats ch hs => simp [setData, hnodeData, alGet_alSet_self]

theorem setData_setData (n : HNode) (d : Val) :
    setData (setData n d) d = setData n d := by
  cases n with
  | text _ => rfl
  | elem t nf e pr ats ch hs =>
    simp [setData, alSet_id _ _ _ (alGet_alSet_self pr "data" d)]

theorem setE_self (n : HNode) (s : String) (h : hnodeE n = some s) :
    setE n (some s) = n := by
  cases n with
  | text _ => simp [hnodeE] at h
  | elem t nf e pr ats ch hs =>
    simp [hnodeE] at h
    simp [setE, h]

theorem hnodeE_elem_of (n : HNode) (s : String) (h : hnodeE n = some s) :
    ∃ t nf pr ats ch hs, n = .elem t nf (some s) pr ats ch hs := by
  cases n with
  | text _ => simp [hnodeE] at h
  | elem t nf e pr ats ch hs =>
    simp [hnodeE] at h
    exact ⟨t, nf, pr, ats, ch, hs, by rw [h]⟩

theorem propGet_propSet_ne (n : HNode) (k k' : String) (v : Val)
    (h : k ≠ k') : propGet (propSet n k v) k' = propGet n k' := by
  cases n with
  | text _ => rfl
  | elem t nf e pr ats ch hs => simp [propSet, propGet, alGet_alSet_ne _ _ _ _ h]

theorem propGet_attrSet (n : HNode) (k k' : String) (v : String) :
    propGet (attrSet n k v) k' = propGet n k' := by
  cases n with
  | text _ => rfl
  | elem t nf e pr ats ch hs => rfl

theorem attrGet_attrSet_ne (n : HNode) (k k' : String) (v : String)
    (h : k ≠ k') : attrGet (attrSet n k v) k' = attrGet n k' := by
  cases n with
  | text _ => rfl
  | elem t nf e pr ats ch hs => simp [attrSet, attrGet, alGet_alSet_ne _ _ _ _ h]

theorem attrGet_propSet (n : HNode) (k k' : String) (v : Val) :
    attrGet (propSet n k v) k' = attrGet n k' := by
  cases n with
  | text _ => rfl
  | elem t nf e pr ats ch hs => rfl

/-- The property loop leaves properties at keys outside the processed list
unchanged. -/
theorem writeProps_propGet_out (ns : Val) (p : List (String × Val)) :
    ∀ (n : HNode) (st : St) (k : String), (∀ q ∈ p, q.1 ≠ k) →
      propGet (writeProps ns p n st).1 k = propGet n k := by
  induction p with
  | nil => intro n st k _; rfl
  | cons q rest ih =>
    intro n st k hk
    obtain ⟨key, pv⟩ := q
    have hkey : key ≠ k := hk (key, pv) (by simp)
    have hrest : ∀ q ∈ rest, q.1 ≠ k := fun q hq => hk q (by simp [hq])
    by_cases hg : propGet n key ≠ pv
    · by_cases hns : truthy ns = true
      · simp [writeProps, hg, hns, ih _ _ _ hrest, propGet_attrSet]
      · simp only [Bool.not_eq_true] at hns
        simp [writeProps, hg, hns, ih _ _ _ hrest, propGet_propSet_ne _ _ _ _ hkey]
    · simp [writeProps, hg, ih _ _ _ hrest]

/-- The property loop leaves attributes at keys outside the processed list
unchanged. -/
theorem writeProps_attrGet_out (ns : Val) (p : List (String × Val)) :
    ∀ (n : HNode) (st : St) (k : String), (∀ q ∈ p, q.1 ≠ k) →
      attrGet (writeProps ns p n st).1 k = attrGet n k := by
  induction p with
  | nil => intro n st k _; rfl
  | cons q rest ih =>
    intro n st k hk
    obtain ⟨key, pv⟩ := q
    have hkey : key ≠ k := hk (key, pv) (by simp)
    have hrest : ∀ q ∈ rest, q.1 ≠ k := fun q hq => hk q (by simp [hq])
    by_cases hg : propGet n key ≠ pv
    · by_cases hns : truthy ns = true
      · simp [writeProps, hg, hns, ih _ _ _ hrest, attrGet_attrSet_ne _ _ _ _ hkey]
      · simp only [Bool.not_eq_true] at hns
        simp [writeProps, hg, hns, ih _ _ _ hrest, attrGet_propSet]
    · simp [writeProps, hg, ih _ _ _ hrest]

/-- With duplicate-free keys, one run of the property loop reaches a state
(same tag, namespace flag, identity, children and hook store; updated
property and attribute maps) on which any further run is the identity and
records no writes. -/
theorem writeProps_shape_idem (ns : Val) :
    ∀ (p : List (String × Val)), nodupKeys p = true →
    ∀ (t : String) (nf : Bool) (e : Option String) (pr : List (String × Val))
      (ats : List (String × String)) (ch : List HNode)
      (hst : List (String × List Hook)) (st : St),
      ∃ pr' ats' st',
        writeProps ns p (.elem t nf e pr ats ch hst) st =
          (.elem t nf e pr' ats' ch hst, st') ∧
        ∀ (ch2 : List HNode) (hs2 : List (String × List Hook)) (st2 : St),
          writeProps ns p (.elem t nf e pr' ats' ch2 hs2) st2 =
            (.elem t nf e pr' ats' ch2 hs2, st2) := by
  intro p
  induction p with
  | nil =>
    intro _ t nf e pr ats ch hst st
    exact ⟨pr, ats, st, rfl, fun _ _ _ => rfl⟩
  | cons q rest ih =>
    intro hnodup t nf e pr ats ch hst st
    obtain ⟨key, pv⟩ := q
    have hnd : (rest.any fun q2 => q2.1 = key) = false ∧ nodupKeys rest = true := by
      simpa [nodupKeys, Bool.and_eq_true, Bool.not_eq_true'] using hnodup
    have hkeyout : ∀ q2 ∈ rest, q2.1 ≠ key := by
      intro q2 hq2
      have h0 := hnd.1
      simp only [List.any_eq_false, decide_eq_true_eq] at h0
      exact h0 q2 hq2
    by_cases hg : propGet (.elem t nf e pr ats ch hst : HNode) key ≠ pv
    · by_cases hns : truthy ns = true
      · obtain ⟨pr', ats', st', hrun, hidem⟩ :=
          ih hnd.2 t nf e pr (alSet ats key (valToString pv)) ch hst
            (if attrGet (.elem t nf e pr ats ch hst : HNode) key =
                some (valToString pv) then st else bumpW st)
        refine ⟨pr', ats', st', ?_, ?_⟩
        · simpa [writeProps, hg, hns, attrSet] using hrun
        · intro ch2 hs2 st2
          have h1 := writeProps_propGet_out ns rest
            (.elem t nf e pr (alSet ats key (valToString pv)) ch hst)
            (if attrGet (.elem t nf e pr ats ch hst : HNode) key =
                some (valToString pv) then st else bumpW st) key hkeyout
          rw [hrun] at h1
          have h2 := writeProps_attrGet_out ns rest
            (.elem t nf e pr (alSet ats key (valToString pv)) ch hst)
            (if attrGet (.elem t nf e pr ats ch hst : HNode) key =
                some (valToString pv) then st else bumpW st) key hkeyout
          rw [hrun] at h2
          have hpg : propGet (.elem t nf e pr' ats' ch2 hs2 : HNode) key ≠ pv := by
            simp only [propGet] at h1 ⊢
            rw [h1]
            simpa [propGet] using hg
          have hag : attrGet (.elem t nf e pr' ats' ch2 hs2 : HNode) key =
              some (valToString pv) := by
            simp only [attrGet] at h2 ⊢
            rw [h2]
            simp [attrSet, alGet_alSet_self]
          have hset : attrSet (.elem t nf e pr' ats' ch2 hs2 : HNode) key
              (valToString pv) = .elem t nf e pr' ats' ch2 hs2 := by
            simp only [attrGet] at hag
            simp [attrSet, alSet_id _ _ _ hag]
          simp [writeProps, hpg, hns, hag, hset, hidem]
      · simp only [Bool.not_eq_true] at hns
        obtain ⟨pr', ats', st', hrun, hidem⟩ :=
          ih hnd.2 t nf e (alSet pr key pv) ats ch hst (bumpW st)
        refine ⟨pr', ats', st', ?_, ?_⟩
        · simpa [writeProps, hg, hns, propSet] using hrun
        · intro ch2 hs2 st2
          have h1 := writeProps_propGet_out ns rest
            (.elem t nf e (alSet pr key pv) ats ch hst) (bumpW st) key hkeyout
          rw [hrun] at h1
          have hpg : propGet (.elem t nf e pr' ats' ch2 hs2 : HNode) key = pv := by
            simp only [propGet] at h1 ⊢
            rw [h1]
            simp [alGet_alSet_self]
          simp [writeProps, hpg, hidem]
    · push_neg at hg
      obtain ⟨pr', ats', st', hrun, hidem⟩ := ih hnd.2 t nf e pr ats ch hst st
      refine ⟨pr', ats', st', ?_, ?_⟩
      · simpa [writeProps, hg] using hrun
      · intro ch2 hs2 st2
        have h1 := writeProps_propGet_out ns rest
          (.elem t nf e pr ats ch hst) st key hkeyout
        rw [hrun] at h1
        have hpg : propGet (.elem t nf e pr' ats' ch2 hs2 : HNode) key = pv := by
          simp only [propGet] at h1 ⊢
          rw [h1]
          simpa [propGet] using hg
        simp [writeProps, hpg, hidem]

/-- `render` only rewrites a container's children and hook store; its tag,
namespace flag, identity, properties and attributes are preserved. -/
theorem renderO_elem_shape {K : Type} [DecidableEq K] (env : Env K)
    (fuel : Nat) (vl : List (VNode K)) (t : String) (nf : Bool)
    (e : Option String) (pr : List (String × Val))
    (ats : List (String × String)) (ch : List HNode)
    (hst : List (String × List Hook)) (ns : Val) (st : St) (dom' : HNode)
    (st' : St)
    (h : renderO env fuel vl (.elem t nf e pr ats ch hst) ns st =
      some (dom', st')) :
    ∃ ch' hs', dom' = .elem t nf e pr ats ch' hs' := by
  cases fuel with
  | zero => simp [renderO] at h
  | succ f =>
    simp only [renderO] at h
    cases hfold : List.foldlM (stepO (renderO env f) f env ns hst)
        (⟨[], [], [], ch, st⟩ : Acc K) vl with
    | none => rw [hfold] at h; simp at h
    | some acc =>
      rw [hfold] at h
      simp only [bind, Option.bind] at h
      rcases hfl : flushStore env.cbRet acc.store acc.st with ⟨store', st₁⟩
      rw [hfl] at h
      cases hrem : List.foldlM
          (fun s c => (renderO env f [] c .jsUndefined s).map Prod.snd)
          (unmountPhase hst store' st₁) acc.after with
      | none => rw [hrem] at h; simp at h
      | some st₃ =>
        rw [hrem] at h
        simp only [Option.pure_def, Option.some.injEq, Prod.mk.injEq] at h
        exact ⟨acc.before, store', h.1.symm⟩

/-- Evaluation of one `forEach` iteration on a text descriptor. -/
theorem stepO_text_eq {K : Type} [DecidableEq K] (env : Env K) (f fuel : Nat)
    (ns : Val) (hs : List (String × List Hook)) (acc : Acc K) (d : Val) :
    stepO (renderO env f) fuel env ns hs acc (.text d) =
      some ⟨acc.ids, acc.store,
        acc.before ++ [setData (if mismatchO acc.after.head? (.text d : VNode K)
          then (.text d : HNode) else (acc.after.head?).getD (.text .jsUndefined)) d],
        (if mismatchO acc.after.head? (.text d : VNode K) then acc.after
          else acc.after.tail),
        if hnodeData (if mismatchO acc.after.head? (.text d : VNode K)
            then (.text d : HNode) else (acc.after.head?).getD (.text .jsUndefined)) = d
          then acc.st else bumpW acc.st⟩ := by
  cases hmis : mismatchO acc.after.head? (.text d : VNode K) <;>
    simp [stepO, resolveComp_text, hmis, createNode]

/-- Evaluation of one `forEach` iteration on an element descriptor: tag the
chosen host node, run the property loop, recurse into the children. -/
theorem stepO_elem_eq {K : Type} [DecidableEq K] (env : Env K) (f fuel : Nat)
    (ns : Val) (hs : List (String × List Hook)) (acc : Acc K) (e2 : String)
    (p2 : List (String × Val)) (c2 : List (VNode K)) :
    stepO (renderO env f) fuel env ns hs acc (.elem e2 p2 c2) =
      (renderO env f c2
        (writeProps (if truthy ns then ns
            else vnodeXmlns (.elem e2 p2 c2 : VNode K)) p2
          (setE (if mismatchO acc.after.head? (.elem e2 p2 c2 : VNode K)
            then createNode (if truthy ns then ns
              else vnodeXmlns (.elem e2 p2 c2 : VNode K))
              (.elem e2 p2 c2 : VNode K)
            else (acc.after.head?).getD (.text .jsUndefined)) (some e2)) acc.st).1
        (if truthy ns then ns else vnodeXmlns (.elem e2 p2 c2 : VNode K))
        (writeProps (if truthy ns then ns
            else vnodeXmlns (.elem e2 p2 c2 : VNode K)) p2
          (setE (if mismatchO acc.after.head? (.elem e2 p2 c2 : VNode K)
            then createNode (if truthy ns then ns
              else vnodeXmlns (.elem e2 p2 c2 : VNode K))
              (.elem e2 p2 c2 : VNode K)
            else (acc.after.head?).getD (.text .jsUndefined)) (some e2)) acc.st).2).bind
        (fun q => some ⟨acc.ids, acc.store, acc.before ++ [q.1],
          (if mismatchO acc.after.head? (.elem e2 p2 c2 : VNode K) then acc.after
            else acc.after.tail), q.2⟩) := by
  cases hmis : mismatchO acc.after.head? (.elem e2 p2 c2 : VNode K) <;>
    simp [stepO, resolveComp_elem, hmis]

/-- Second-pass property of one `forEach` iteration: the host node produced
for a well-formed concrete descriptor is reused as-is by a further
iteration on the same descriptor against it, with no state change.  `IH`
is the second-pass property of `render` at the remaining fuel, used for
the recursion into element children. -/
theorem stepO_second_pass {K : Type} [DecidableEq K] (env : Env K) (f : Nat)
    (ns : Val)
    (IH : ∀ (vl : List (VNode K)) (dom : HNode) (ns' : Val) (st : St)
      (dom' : HNode) (st' : St), wfList vl = true →
      renderO env f vl dom ns' st = some (dom', st') →
      ∀ (st₂ : St) (d₂ : HNode) (s₃ : St),
        renderO env f vl dom' ns' st₂ = some (d₂, s₃) →
        d₂ = dom' ∧ s₃ = st₂) :
    ∀ (v : VNode K), wfV v = true →
    ∀ (hs1 : List (String × List Hook)) (acc accM : Acc K),
      stepO (renderO env f) f env ns hs1 acc v = some accM →
      ∃ n' a' stM,
        accM = ⟨acc.ids, acc.store, acc.before ++ [n'], a', stM⟩ ∧
        ∀ (hs2 : List (String × List Hook)) (acc2 : Acc K) (x : List HNode)
          (acc2' : Acc K), acc2.after = n' :: x →
          stepO (renderO env f) f env ns hs2 acc2 v = some acc2' →
          acc2' = ⟨acc2.ids, acc2.store, acc2.before ++ [n'], x, acc2.st⟩ := by
  intro v hv hs1 acc accM h1
  cases v with
  | comp g p c => simp [wfV] at hv
  | text d =>
    rw [stepO_text_eq] at h1
    cases hmis : mismatchO acc.after.head? (.text d : VNode K) with
    | true =>
      simp only [hmis, if_true, setData, hnodeData, if_pos] at h1
      refine ⟨.text d, acc.after, acc.st, (Option.some.inj h1).symm, ?_⟩
      intro hs2 acc2 x acc2' hafter2 h2
      rw [stepO_text_eq, hafter2] at h2
      simp [mismatchO, hnodeData, setData] at h2
      exact h2.symm
    | false =>
      obtain ⟨n0, tl, hafter⟩ : ∃ n0 tl, acc.after = n0 :: tl := by
        cases hAft : acc.after with
        | nil => rw [hAft] at hmis; simp [mismatchO] at hmis
        | cons a b => exact ⟨a, b, rfl⟩
      have hd0 : hnodeData n0 = d := by
        rw [hafter] at hmis
        simpa [mismatchO] using hmis
      have hmis2 : mismatchO (some n0) (.text d : VNode K) = false := by
        simp [mismatchO, hd0]
      rw [hafter] at h1
      simp only [List.head?_cons, List.tail_cons, Option.getD_some, hmis2,
        Bool.false_eq_true, if_false, hd0, eq_self_iff_true, if_true] at h1
      refine ⟨setData n0 d, tl, acc.st, (Option.some.inj h1).symm, ?_⟩
      intro hs2 acc2 x acc2' hafter2 h2
      rw [stepO_text_eq, hafter2] at h2
      simp [mismatchO, hnodeData_setData, setData_setData] at h2
      exact h2.symm
  | elem e2 p2 c2 =>
    obtain ⟨hnodup, hwfc⟩ : nodupKeys p2 = true ∧ wfList c2 = true := by
      simpa [wfV, Bool.and_eq_true] using hv
    have main : ∀ (t1 : String) (nf1 : Bool) (pr1 : List (String × Val))
        (ats1 : List (String × String)) (ch1 : List HNode)
        (hst1 : List (String × List Hook)) (rest1 : List HNode),
        ((renderO env f c2
            (writeProps (if truthy ns then ns
                else vnodeXmlns (.elem e2 p2 c2 : VNode K)) p2
              (.elem t1 nf1 (some e2) pr1 ats1 ch1 hst1) acc.st).1
            (if truthy ns then ns else vnodeXmlns (.elem e2 p2 c2 : VNode K))
            (writeProps (if truthy ns then ns
                else vnodeXmlns (.elem e2 p2 c2 : VNode K)) p2
              (.elem t1 nf1 (some e2) pr1 ats1 ch1 hst1) acc.st).2).bind
          (fun q => some ⟨acc.ids, acc.store, acc.before ++ [q.1], rest1,
            q.2⟩)) = some accM →
        ∃ n' a' stM,
          accM = ⟨acc.ids, acc.store, acc.before ++ [n'], a', stM⟩ ∧
          ∀ (hs2 : List (String × List Hook)) (acc2 : Acc K) (x : List HNode)
            (acc2' : Acc K), acc2.after = n' :: x →
            stepO (renderO env f) f env ns hs2 acc2 (.elem e2 p2 c2) =
              some acc2' →
            acc2' = ⟨acc2.ids, acc2.store, acc2.before ++ [n'], x,
              acc2.st⟩ := by
      intro t1 nf1 pr1 ats1 ch1 hst1 rest1 h1'
      obtain ⟨pr', ats', st', hwrun, hwidem⟩ :=
        writeProps_shape_idem (if truthy ns then ns
          else vnodeXmlns (.elem e2 p2 c2 : VNode K)) p2 hnodup
          t1 nf1 (some e2) pr1 ats1 ch1 hst1 acc.st
      rw [hwrun] at h1'
      dsimp only at h1'
      cases hr1 : renderO env f c2 (.elem t1 nf1 (some e2) pr' ats' ch1 hst1)
          (if truthy ns then ns else vnodeXmlns (.elem e2 p2 c2 : VNode K))
          st' with
      | none => rw [hr1] at h1'; simp at h1'
      | some q1 =>
        obtain ⟨n', stM⟩ := q1
        rw [hr1] at h1'
        simp only [bind, Option.bind] at h1'
        obtain ⟨ch', hs'', hshape⟩ := renderO_elem_shape env f c2 t1 nf1
          (some e2) pr' ats' ch1 hst1 _ st' n' stM hr1
        refine ⟨n', rest1, stM, (Option.some.inj h1').symm, ?_⟩
        intro hs2 acc2 x acc2' hafter2 h2
        have hne : hnodeE n' = some e2 := by rw [hshape]; rfl
        have hm2 : mismatchO acc2.after.head? (.elem e2 p2 c2 : VNode K) =
            false := by
          rw [hafter2]; simp [mismatchO, hne]
        rw [stepO_elem_eq] at h2
        simp only [hm2, Bool.false_eq_true, if_false] at h2
        rw [hafter2] at h2
        simp only [List.head?_cons, List.tail_cons, Option.getD_some] at h2
        rw [setE_self n' e2 hne, hshape, hwidem ch' hs'' acc2.st] at h2
        dsimp only at h2
        cases hr2 : renderO env f c2
            (.elem t1 nf1 (some e2) pr' ats' ch' hs'')
            (if truthy ns then ns else vnodeXmlns (.elem e2 p2 c2 : VNode K))
            acc2.st with
        | none => rw [hr2] at h2; simp at h2
        | some q2 =>
          obtain ⟨d₂, s₃⟩ := q2
          rw [hr2] at h2
          simp only [bind, Option.bind] at h2
          have hnn : renderO env f c2
              (.elem t1 nf1 (some e2) pr' ats' ch1 hst1)
              (if truthy ns then ns else vnodeXmlns (.elem e2 p2 c2 : VNode K))
              st' = some (.elem t1 nf1 (some e2) pr' ats' ch' hs'', stM) := by
            rw [← hshape]; exact hr1
          obtain ⟨hd2, hs3⟩ := IH c2 _ _ st' _ stM hwfc hnn acc2.st d₂ s₃ hr2
          rw [hd2, hs3] at h2
          rw [← hshape] at h2
          exact (Option.some.inj h2).symm
    rw [stepO_elem_eq] at h1
    cases hmis : mismatchO acc.after.head? (.elem e2 p2 c2 : VNode K) with
    | true =>
      simp only [hmis, if_true, createNode, setE] at h1
      exact main e2 (truthy (if truthy ns then ns
        else vnodeXmlns (.elem e2 p2 c2 : VNode K))) [] [] [] [] acc.after h1
    | false =>
      obtain ⟨n0, tl, hafter⟩ : ∃ n0 tl, acc.after = n0 :: tl := by
        cases hAft : acc.after with
        | nil => rw [hAft] at hmis; simp [mismatchO] at hmis
        | cons a b => exact ⟨a, b, rfl⟩
      have hne0 : hnodeE n0 = some e2 := by
        rw [hafter] at hmis
        simpa [mismatchO] using hmis
      obtain ⟨t0, nf0, pr0, ats0, ch0, hs0, hn0⟩ := hnodeE_elem_of n0 e2 hne0
      have hmis2 : mismatchO
          (some (HNode.elem t0 nf0 (some e2) pr0 ats0 ch0 hs0))
          (.elem e2 p2 c2 : VNode K) = false := by
        simp [mismatchO, hnodeE]
      rw [hafter] at h1
      simp only [List.head?_cons, List.tail_cons, Option.getD_some] at h1
      rw [hn0] at h1
      simp only [hmis2, Bool.false_eq_true, if_false] at h1
      simp only [setE] at h1
      exact main t0 nf0 pr0 ats0 ch0 hs0 tl h1

/-- Second-pass property of the whole `forEach` loop: the first pass
produces one host node per descriptor, appended to `before`, leaving the
counters and new store untouched (no components); a further pass over the
produced nodes reuses them all and changes nothing. -/
theorem foldO_second_pass {K : Type} [DecidableEq K] (env : Env K) (f : Nat)
    (ns : Val)
    (IH : ∀ (vl : List (VNode K)) (dom : HNode) (ns' : Val) (st : St)
      (dom' : HNode) (st' : St), wfList vl = true →
      renderO env f vl dom ns' st = some (dom', st') →
      ∀ (st₂ : St) (d₂ : HNode) (s₃ : St),
        renderO env f vl dom' ns' st₂ = some (d₂, s₃) →
        d₂ = dom' ∧ s₃ = st₂) :
    ∀ (vl : List (VNode K)), wfList vl = true →
    ∀ (hs1 : List (String × List Hook)) (acc acc₁ : Acc K),
      List.foldlM (stepO (renderO env f) f env ns hs1) acc vl = some acc₁ →
      acc₁.ids = acc.ids ∧ acc₁.store = acc.store ∧
      ∃ outs, acc₁.before = acc.before ++ outs ∧
        ∀ (hs2 : List (String × List Hook)) (acc2 acc2' : Acc K),
          acc2.after = outs →
          List.foldlM (stepO (renderO env f) f env ns hs2) acc2 vl =
            some acc2' →
          acc2' = ⟨acc2.ids, acc2.store, acc2.before ++ outs, [],
            acc2.st⟩ := by
  intro vl
  induction vl with
  | nil =>
    intro _ hs1 acc acc₁ h
    simp only [List.foldlM_nil, Option.pure_def] at h
    have h' := Option.some.inj h
    subst h'
    refine ⟨rfl, rfl, [], by simp, ?_⟩
    intro hs2 acc2 acc2' hafter2 h2
    simp only [List.foldlM_nil, Option.pure_def] at h2
    have h2' := Option.some.inj h2
    obtain ⟨i2, s2, b2, a2, t2⟩ := acc2
    simp only at hafter2
    subst hafter2
    rw [← h2']
    simp
  | cons v rest ihl =>
    intro hwf hs1 acc acc₁ h
    obtain ⟨hwv, hwrest⟩ : wfV v = true ∧ wfList rest = true := by
      simpa [wfList, Bool.and_eq_true] using hwf
    rw [List.foldlM_cons] at h
    cases hstep1 : stepO (renderO env f) f env ns hs1 acc v with
    | none => rw [hstep1] at h; simp at h
    | some accM =>
      rw [hstep1] at h
      simp only [bind, Option.bind] at h
      obtain ⟨n', a', stM, haccM, hQ⟩ :=
        stepO_second_pass env f ns IH v hwv hs1 acc accM hstep1
      obtain ⟨hids, hstore, outs', hbefore, hrest2⟩ :=
        ihl hwrest hs1 accM acc₁ h
      subst haccM
      refine ⟨by simpa using hids, by simpa using hstore, n' :: outs', ?_, ?_⟩
      · rw [hbefore]; simp
      · intro hs2 acc2 acc2' hafter2 h2
        rw [List.foldlM_cons] at h2
        cases hstep2 : stepO (renderO env f) f env ns hs2 acc2 v with
        | none => rw [hstep2] at h2; simp at h2
        | some accM2 =>
          rw [hstep2] at h2
          simp only [bind, Option.bind] at h2
          have haccM2 := hQ hs2 acc2 outs' accM2 hafter2 hstep2
          subst haccM2
          have h3 := hrest2 hs2
            ⟨acc2.ids, acc2.store, acc2.before ++ [n'], outs', acc2.st⟩
            acc2' rfl h2
          simpa [List.append_assoc] using h3

/-- C7: rendering the same well-formed concrete descriptor list twice into
the same container is idempotent.  The second pass returns the very same
host tree and leaves the instrumentation state untouched: zero net host
property writes, no node creations survive, every matching host child is
reused, and no callback fires. -/
theorem render_second_pass_noop {K : Type} [DecidableEq K] (env : Env K) :
    ∀ (fuel : Nat) (vlist : List (VNode K)) (dom : HNode) (ns : Val)
      (st : St) (dom' : HNode) (st' : St) (st₂ : St) (dom₂ : HNode)
      (st₃ : St), wfList vlist = true →
      renderO env fuel vlist dom ns st = some (dom', st') →
      renderO env fuel vlist dom' ns st₂ = some (dom₂, st₃) →
      dom₂ = dom' ∧ st₃ = st₂ := by
  intro fuel
  induction fuel with
  | zero =>
    intro vlist dom ns st dom' st' st₂ dom₂ st₃ _ h1 _
    simp [renderO] at h1
  | succ f ihf =>
    intro vlist dom ns st dom' st' st₂ dom₂ st₃ hwf h1 h2
    have IH : ∀ (vl : List (VNode K)) (dm : HNode) (ns' : Val) (s : St)
        (dm' : HNode) (s' : St), wfList vl = true →
        renderO env f vl dm ns' s = some (dm', s') →
        ∀ (s₂ : St) (d₂ : HNode) (s₃ : St),
          renderO env f vl dm' ns' s₂ = some (d₂, s₃) →
          d₂ = dm' ∧ s₃ = s₂ := by
      intro vl dm ns' s dm' s' hw ha s₂ d₂ s₃ hb
      exact ihf vl dm ns' s dm' s' s₂ d₂ s₃ hw ha hb
    cases dom with
    | text d0 =>
      cases vlist with
      | nil =>
        simp only [renderO, List.isEmpty_nil, if_true, Option.some.injEq,
          Prod.mk.injEq] at h1
        obtain ⟨hdom, hst⟩ := h1
        rw [← hdom] at h2
        simp only [renderO, List.isEmpty_nil, if_true, Option.some.injEq,
          Prod.mk.injEq] at h2
        exact ⟨h2.1.symm.trans hdom, h2.2.symm⟩
      | cons v vr => simp [renderO] at h1
    | elem tag nf e pr ats ch hst =>
      simp only [renderO] at h1
      cases hfold1 : List.foldlM (stepO (renderO env f) f env ns hst)
          (⟨[], [], [], ch, st⟩ : Acc K) vlist with
      | none => rw [hfold1] at h1; simp at h1
      | some acc₁ =>
        rw [hfold1] at h1
        simp only [bind, Option.bind] at h1
        obtain ⟨hids1, hstore1, outs, hbefore1, hrun2⟩ :=
          foldO_second_pass env f ns IH vlist hwf hst
            ⟨[], [], [], ch, st⟩ acc₁ hfold1
        have hstore1' : acc₁.store = [] := by simpa using hstore1
        have hbefore1' : acc₁.before = outs := by simpa using hbefore1
        rw [hstore1'] at h1
        simp only [flushStore] at h1
        cases hrem1 : List.foldlM
            (fun s c => (renderO env f [] c .jsUndefined s).map Prod.snd)
            (unmountPhase hst [] acc₁.st) acc₁.after with
        | none => rw [hrem1] at h1; simp at h1
        | some st₃' =>
          rw [hrem1] at h1
          simp only [Option.pure_def, Option.some.injEq, Prod.mk.injEq] at h1
          obtain ⟨hdom', hst'⟩ := h1
          rw [← hdom'] at h2
          simp only [renderO] at h2
          cases hfold2 : List.foldlM (stepO (renderO env f) f env ns [])
              (⟨[], [], [], acc₁.before, st₂⟩ : Acc K) vlist with
          | none => rw [hfold2] at h2; simp at h2
          | some acc₂ =>
            rw [hfold2] at h2
            simp only [bind, Option.bind] at h2
            have hacc₂ := hrun2 [] ⟨[], [], [], acc₁.before, st₂⟩ acc₂
              (by simpa using hbefore1') hfold2
            subst hacc₂
            simp only [flushStore, unmountPhase, List.filter_nil,
              List.foldl_nil, List.foldlM_nil, Option.pure_def,
              Option.some.injEq, Prod.mk.injEq] at h2
            refine ⟨?_, h2.2.symm⟩
            rw [← h2.1, ← hdom', hbefore1']
            simp

/-- C7 witness: a concrete descriptor rendered into the empty body, then
rendered again onto the result: the theorem instance shows the second
pass reproduces the same tree and state. -/
theorem render_second_pass_noop_witness :
    wfList idemVL = true ∧
    renderO counterEnv 4 idemVL body0 .jsUndefined st0 = some (idemDom1, ⟨1, []⟩) ∧
    renderO counterEnv 4 idemVL idemDom1 .jsUndefined st0 = some (idemDom1, st0) ∧
    (idemDom1 = idemDom1 ∧ st0 = st0) :=
  ⟨by decide, rfl, rfl,
    render_second_pass_noop counterEnv 4 idemVL body0 .jsUndefined st0 idemDom1
      ⟨1, []⟩ st0 idemDom1 st0 (by decide) rfl rfl⟩

end O
